import Mathlib

/-!
Shallow embedding of the content-moderation pipeline
(backend/services/ContentProcessor.js, backend/services/VectorService.js,
backend/services/RedisService.js) and proofs about it.

Numeric scores are modelled over the rationals; `Math.round(x*100)/100` is
modelled as `jsRound2` (round-half-up, which agrees with JavaScript
`Math.round` on the nonnegative values produced here).  The Redis JSON
document store, the set-backed "bloom filter" (`SADD`/`SISMEMBER`), the
in-process counters and the published events are modelled as explicit state.
-/

namespace Moderation

/-- ASCII lowercasing of a string, modelling `String.prototype.toLowerCase`
on the ASCII texts handled by the service. -/
def lowerStr (s : String) : String :=
  String.mk (s.toList.map Char.toLower)

/-- `leadsWith needle hay` is true when `needle` is an initial segment of `hay`. -/
def leadsWith : List Char → List Char → Bool
  | [], _ => true
  | _ :: _, [] => false
  | a :: as, b :: bs => a == b && leadsWith as bs

/-- `containsSub needle hay`: does `needle` occur contiguously inside `hay`?
Models `String.prototype.includes`. -/
def containsSub (needle : List Char) : List Char → Bool
  | [] => needle.isEmpty
  | c :: cs => leadsWith needle (c :: cs) || containsSub needle cs

/-- `hay.includes(needle)` on strings. -/
def strIncludes (hay needle : String) : Bool :=
  containsSub needle.toList hay.toList

/-- Whitespace characters matched by the `\s` class on the ASCII texts handled
by the service. -/
def isSpc (c : Char) : Bool :=
  c == ' ' || c == '\t' || c == '\n' || c == '\r' || c == '\x0b' || c == '\x0c'

/-- Split a character list into its maximal runs of non-whitespace characters
(the result of `split(/\s+/)` followed by discarding empty segments). -/
def splitRunsAux : List Char → List Char → List (List Char)
  | [], acc => if acc.isEmpty then [] else [acc.reverse]
  | c :: cs, acc =>
    if isSpc c then
      if acc.isEmpty then splitRunsAux cs [] else acc.reverse :: splitRunsAux cs []
    else splitRunsAux cs (c :: acc)

def splitRuns (l : List Char) : List (List Char) := splitRunsAux l []

/-- `Math.round(q * 100) / 100`: round to two decimal places, halves up. -/
def jsRound2 (q : ℚ) : ℚ := ((⌊q * 100 + 1/2⌋ : ℤ) : ℚ) / 100

/-- Toxic word list from `analyzeContent`. -/
def toxicWords : List String :=
  ["hate", "stupid", "terrible", "awful", "horrible", "disgusting"]

/-- Positive word list from `analyzeContent`. -/
def positiveWords : List String :=
  ["great", "excellent", "amazing", "wonderful", "fantastic", "love"]

/-- The `forEach` accumulation: add `inc` for every word of `words` contained
in the lowercased text. -/
def scoreAccum (text : String) (words : List String) (inc : ℚ) : ℚ :=
  words.foldl (fun s w => if strIncludes (lowerStr text) w then s + inc else s) 0

/-- Toxicity score before rounding: 0.3 per matched toxic word, capped at 1. -/
def rawToxicity (text : String) : ℚ :=
  min (scoreAccum text toxicWords (3/10)) 1

/-- Positive score before rounding: 0.2 per matched positive word, capped at 1. -/
def rawPositive (text : String) : ℚ :=
  min (scoreAccum text positiveWords (1/5)) 1

/-- Sentiment resolution from the two scores. -/
def sentimentOf (tox pos : ℚ) : String :=
  if pos > tox ∧ pos > 3/10 then "positive"
  else if tox > pos ∧ tox > 3/10 then "negative"
  else "neutral"

/-- The ordered category table from `analyzeContent` (`general` has no
keywords and can never match). -/
def categoriesTable : List (String × List String) :=
  [("review", ["product", "service", "quality", "recommend", "buy"]),
   ("support", ["help", "problem", "issue", "bug", "error"]),
   ("feedback", ["suggest", "improve", "feature", "idea"]),
   ("general", [])]

/-- First category whose keyword set has a substring match in the lowered
text; otherwise the hint (`category || 'general'`, with the empty string
standing for a missing hint). -/
def detectCategory (textLower hint : String) : String :=
  match categoriesTable.find? (fun p => p.2.any (fun k => strIncludes textLower k)) with
  | some p => p.1
  | none => if hint = "" then "general" else hint

/-- Confidence before rounding, exactly as computed on line 247 of
`ContentProcessor.js` (note: no inner cap on the length term). -/
def rawConfidence (text : String) : ℚ :=
  min (1/2 + ((text.length : ℚ) / 200) * (3/10)
        + (if rawToxicity text > 0 then 1/5 else 0)
        + (if rawPositive text > 0 then 1/10 else 0))
      (19/20)

/-- One step of `wordCount[word] = (wordCount[word] || 0) + 1` on a plain
object modelled as an insertion-ordered association list: an existing key is
updated in place, a new key is appended. -/
def jsSetIncr (m : List (String × Nat)) (w : String) : List (String × Nat) :=
  if m.any (fun p => p.1 == w) then
    m.map (fun p => if p.1 == w then (p.1, p.2 + 1) else p)
  else m ++ [(w, 1)]

/-- The frequency object built by the `forEach` loop of `extractKeywords`. -/
def buildCount (ws : List String) : List (String × Nat) :=
  ws.foldl jsSetIncr []

/-- Numeric value of a digit string. -/
def digitsToNat (ds : List Char) : Nat :=
  ds.foldl (fun n c => n * 10 + (c.toNat - 48)) 0

/-- Is this key an ECMAScript array index (a canonical numeric string whose
value is below 2^32 - 1)?  Such keys are enumerated first, in ascending
numeric order, by `Object.entries`. -/
def isArrayIndexKey (s : String) : Bool :=
  let ds := s.toList
  !ds.isEmpty && ds.all Char.isDigit
    && (s == "0" || ds.headD ' ' != '0')
    && digitsToNat ds < 4294967295

/-- Insert into a list of entries sorted by ascending numeric key value. -/
def insertByKeyAsc (x : String × Nat) : List (String × Nat) → List (String × Nat)
  | [] => [x]
  | y :: ys =>
    if digitsToNat x.1.toList ≤ digitsToNat y.1.toList then x :: y :: ys
    else y :: insertByKeyAsc x ys

def sortByKeyAsc (l : List (String × Nat)) : List (String × Nat) :=
  l.foldr insertByKeyAsc []

/-- `Object.entries` enumeration order: array-index keys first in ascending
numeric order, then the remaining keys in insertion order. -/
def jsEntries (m : List (String × Nat)) : List (String × Nat) :=
  sortByKeyAsc (m.filter (fun p => isArrayIndexKey p.1))
    ++ m.filter (fun p => !isArrayIndexKey p.1)

/-- Stable insertion for sorting by descending count: an element is placed
before every strictly smaller count and after equal counts already placed
later in the fold, which reproduces the stable `sort(([,a],[,b]) => b - a)`. -/
def insertByCountDesc (x : String × Nat) : List (String × Nat) → List (String × Nat)
  | [] => [x]
  | y :: ys => if x.2 ≥ y.2 then x :: y :: ys else y :: insertByCountDesc x ys

def sortByCountDesc (l : List (String × Nat)) : List (String × Nat) :=
  l.foldr insertByCountDesc []

/-- Tokenization used by `extractKeywords`: lowercase, replace every
non-alphanumeric character by a space, split on whitespace and keep tokens
longer than 3 characters. -/
def keywordTokens (text : String) : List String :=
  ((splitRuns ((lowerStr text).toList.map
      (fun c => if c.isAlphanum || isSpc c then c else ' '))).map
    (fun l => String.mk l)).filter (fun w => w.length > 3)

/-- `extractKeywords` from `ContentProcessor.js`: frequency map, stable sort
by descending count over the `Object.entries` enumeration, top 5. -/
def extractKeywords (text : String) : List String :=
  ((sortByCountDesc (jsEntries (buildCount (keywordTokens text)))).take 5).map
    (fun p => p.1)

/-- Result record of `analyzeContent`.  `error` is `none` on the normal path
(the JavaScript object has no such field there). -/
structure AnalysisResult where
  toxicityScore : ℚ
  positiveScore : ℚ
  sentiment : String
  category : String
  isToxic : Bool
  confidence : ℚ
  keywords : List String
  wordCount : Nat
  language : String
  error : Option String
deriving DecidableEq, Repr

/-- `analyzeContent(text, category)`.  The `fault` flag models whether the
`try` block raises midway (an injected AnalysisError); in that case the
`catch` block's low-confidence neutral fallback (lines 267-278) is returned. -/
def analyzeContent (text category : String) (fault : Bool) : AnalysisResult :=
  if fault then
    { toxicityScore := 0
      positiveScore := 0
      sentiment := "neutral"
      category := if category = "" then "general" else category
      isToxic := false
      confidence := 1/10
      keywords := []
      wordCount := (text.splitOn " ").length
      language := "en"
      error := some "analysis error" }
  else
    let textLower := lowerStr text
    let tox := rawToxicity text
    let pos := rawPositive text
    { toxicityScore := jsRound2 tox
      positiveScore := jsRound2 pos
      sentiment := sentimentOf tox pos
      category := detectCategory textLower category
      isToxic := decide (tox > 1/2)
      confidence := jsRound2 (rawConfidence text)
      keywords := extractKeywords text
      wordCount := (text.splitOn " ").length
      language := "en"
      error := none }

/-- Truncation of an integer to a signed 32-bit value (`| 0` / `& hash`). -/
def toInt32 (n : ℤ) : ℤ := (n + 2 ^ 31) % 2 ^ 32 - 2 ^ 31

/-- One step of the rolling hash `hash = ((hash << 5) - hash) + char` with
32-bit wraparound. -/
def hashStep (h : ℤ) (c : Char) : ℤ :=
  toInt32 (toInt32 (h * 32) - h + c.toNat)

/-- `simpleHash` from `VectorService.js`: the 32-bit rolling hash of the
text, made nonnegative with `Math.abs`. -/
def simpleHash (text : String) : Nat :=
  (text.toList.foldl hashStep 0).natAbs

/-- `hashContent` from `ContentProcessor.js`: same rolling hash, rendered as
a decimal string. -/
def hashContent (text : String) : String :=
  toString (simpleHash text)

/-! ### VectorService.generateEmbedding

`Math.sin` returns a double; it is abstracted here as a parameter
`sinq : ℚ → ℚ`, so every theorem below holds for the actual sine table.
The accumulation is exact rational arithmetic; only the final
normalization (`Math.sqrt`) lives in `ℝ`. -/

/-- Words of the embedding normalization: lowercase, delete every character
outside `[a-z0-9\s]`, split on whitespace, keep nonempty words. -/
def embedWords (text : String) : List (List Char) :=
  splitRuns ((lowerStr text).toList.filter
    (fun c => c.isLower || c.isDigit || isSpc c))

/-- Accumulate one character of word `i` at position `j`:
`embedding[(c*(i+1)*(j+1)) % 384] += sin(c/100) * 0.1`. -/
def addChar (sinq : ℚ → ℚ) (i j : Nat) (c : Char) (v : List ℚ) : List ℚ :=
  let idx := (c.toNat * (i + 1) * (j + 1)) % 384
  v.set idx (v.getD idx 0 + sinq ((c.toNat : ℚ) / 100) * (1/10))

/-- Accumulate all characters of the word at position `i`. -/
def addWord (sinq : ℚ → ℚ) (v : List ℚ) (iw : Nat × List Char) : List ℚ :=
  iw.2.enum.foldl (fun acc jc => addChar sinq iw.1 jc.1 jc.2 acc) v

/-- The word pass of `generateEmbedding`, starting from the zero vector of
dimension 384. -/
def wordsPass (sinq : ℚ → ℚ) (text : String) : List ℚ :=
  (embedWords text).enum.foldl (addWord sinq) (List.replicate 384 0)

/-- The hash pass: `embedding[k] += sin((hash+k)/1000) * 0.05` for every
index `k`. -/
def hashPass (sinq : ℚ → ℚ) (h : Nat) (v : List ℚ) : List ℚ :=
  (List.range 384).foldl
    (fun acc k => acc.set k (acc.getD k 0 + sinq (((h : ℚ) + k) / 1000) * (1/20))) v

/-- The embedding vector before normalization. -/
def embeddingAccum (sinq : ℚ → ℚ) (text : String) : List ℚ :=
  hashPass sinq (simpleHash text) (wordsPass sinq text)

/-- Squared magnitude `reduce((sum, val) => sum + val*val, 0)`. -/
def magnitudeSq (v : List ℚ) : ℚ :=
  (v.map (fun x => x * x)).sum

/-- `generateEmbedding`: L2-normalize the accumulated vector; components map
to 0 when the magnitude is 0.  (`magnitude > 0` in the source is equivalent
to `magnitudeSq > 0` since `Math.sqrt` is monotone and zero at zero.) -/
noncomputable def generateEmbedding (sinq : ℚ → ℚ) (text : String) : List ℝ :=
  let v := embeddingAccum sinq text
  let s := magnitudeSq v
  v.map (fun (q : ℚ) => if 0 < s then (q : ℝ) / Real.sqrt (s : ℝ) else 0)

/-! ### State model of submission and the stream consumer

`RedisService.setJSON` issues `JSON.SET key '$' value`, which sets the
*root* of the document: a write to an existing key replaces the whole
stored record.  The store is therefore an association list of whole
records; optional fields model fields absent from the written object.
`RedisService.addToBloomFilter`/`checkBloomFilter` are `SADD`/`SISMEMBER`
on a plain set.  `VectorService.storeContentVector` also writes to the key
`content:<id>` (and swallows its own errors); that intermediate write is
immediately replaced by the terminal `setJSON` on the same key, so it is
elided from the store model. -/

/-- A stored content document (all fields optional: a `JSON.SET` at the root
keeps exactly the fields of the written object). -/
structure ContentRecord where
  id : Option String
  text : Option String
  category : Option String
  userId : Option String
  timestamp : Option Nat
  status : Option String
  source : Option String
  streamId : Option String
  analysis : Option AnalysisResult
  error : Option String
  processedAt : Option Nat
  processingTime : Option ℚ
deriving DecidableEq, Repr

/-- A stream message as consumed by `processContent`.  `text` is optional:
a stream entry without a `text` field makes both the `try` block and the
`catch` block of `analyzeContent` throw (`text.toLowerCase` resp.
`text.split` on `undefined`), so analysis fails for it. -/
structure Msg where
  contentId : String
  text : Option String
  category : String
  userId : String
deriving DecidableEq, Repr

/-- Payload published on `content:processed`. -/
structure ProcessedEvent where
  contentId : String
  status : String
  analysis : AnalysisResult
  processingTime : ℚ
  timestamp : Nat
  isDuplicate : Bool
deriving DecidableEq, Repr

/-- In-process counters of the consumer. -/
structure ProcStats where
  totalProcessed : Nat
  totalFlagged : Nat
  totalApproved : Nat
  averageProcessingTime : ℚ
deriving DecidableEq, Repr

/-- `SADD`: add to a Redis set. -/
def sAdd (l : List String) (x : String) : List String :=
  if l.contains x then l else x :: l

/-- Write a whole JSON document at a key (insert or replace). -/
def storeSet (m : List (String × ContentRecord)) (k : String) (v : ContentRecord) :
    List (String × ContentRecord) :=
  if m.any (fun p => p.1 == k) then
    m.map (fun p => if p.1 == k then (k, v) else p)
  else m ++ [(k, v)]

/-- Read a JSON document. -/
def storeGet (m : List (String × ContentRecord)) (k : String) : Option ContentRecord :=
  (m.find? (fun p => p.1 == k)).map (fun p => p.2)

/-- Combined state: stream, JSON store, the `bloom:content_hashes` set, the
`visitors:unique` HyperLogLog (modelled exactly), counters and the
published events. -/
structure SysState where
  stream : List Msg
  store : List (String × ContentRecord)
  bloom : List String
  hll : List String
  stats : ProcStats
  events : List ProcessedEvent
deriving DecidableEq, Repr

def initState : SysState :=
  { stream := [], store := [], bloom := [], hll := [],
    stats := { totalProcessed := 0, totalFlagged := 0, totalApproved := 0,
               averageProcessingTime := 0 },
    events := [] }

/-- `submitContent`: append to the stream, store the pending record
(creation fields only), track the user in the HyperLogLog.  `contentId`,
`streamId` and `timestamp` are the externally generated UUID, stream id and
wall-clock time. -/
def submitContent (st : SysState) (text : String)
    (category userId source : Option String)
    (contentId streamId : String) (timestamp : Nat) : SysState :=
  let cat := category.getD "general"
  let uid := userId.getD "anonymous"
  let src := source.getD "web"
  { st with
    stream := st.stream ++ [{ contentId := contentId, text := some text,
                              category := cat, userId := uid }],
    store := storeSet st.store ("content:" ++ contentId)
      { id := some contentId, text := some text, category := some cat,
        userId := some uid, timestamp := some timestamp,
        status := some "pending", source := some src, streamId := some streamId,
        analysis := none, error := none, processedAt := none,
        processingTime := none },
    hll := sAdd st.hll uid }

/-- The `catch` branch of `processContent`: replace the stored document with
an error record. -/
def writeErrorState (st : SysState) (contentId : String) (now : Nat)
    (procTime : ℚ) : SysState :=
  { st with
    store := storeSet st.store ("content:" ++ contentId)
      { id := none, text := none, category := none, userId := none,
        timestamp := none, status := some "error", source := none,
        streamId := none, analysis := none, error := some "processing error",
        processedAt := some now, processingTime := some procTime } }

/-- One `processContent` step.  `fault` injects an AnalysisError inside
`analyzeContent`'s `try` block (the fallback result is then returned, not
thrown); `storeFails` makes the terminal `setJSON` throw (it is the only
rethrowing call inside the `try`, all other collaborator methods swallow
their errors), which diverts to the `catch` branch before any counter is
touched.  A message without a `text` field fails during analysis, also
before any counter is touched.  `procTime` and `now` are the measured
duration and the wall-clock time. -/
def processContent (st : SysState) (msg : Msg) (fault storeFails : Bool)
    (procTime : ℚ) (now : Nat) : SysState :=
  match msg.text with
  | none => writeErrorState st msg.contentId now procTime
  | some t =>
    if storeFails then writeErrorState st msg.contentId now procTime
    else
      let analysis := analyzeContent t msg.category fault
      let status := if analysis.isToxic then "flagged" else "approved"
      let record : ContentRecord :=
        { id := none, text := none, category := none, userId := none,
          timestamp := none, status := some status, source := none,
          streamId := none, analysis := some analysis, error := none,
          processedAt := some now, processingTime := some procTime }
      let store1 := storeSet st.store ("content:" ++ msg.contentId) record
      let stats1 :=
        if analysis.isToxic then
          { st.stats with totalFlagged := st.stats.totalFlagged + 1 }
        else
          { st.stats with totalApproved := st.stats.totalApproved + 1 }
      let textHash := hashContent t
      let isDup := st.bloom.contains textHash
      let bloom1 := if isDup then st.bloom else sAdd st.bloom textHash
      let stats2 :=
        { stats1 with
          totalProcessed := stats1.totalProcessed + 1,
          averageProcessingTime :=
            (stats1.averageProcessingTime * (((stats1.totalProcessed : ℚ) + 1) - 1)
              + procTime) / ((stats1.totalProcessed : ℚ) + 1) }
      let ev : ProcessedEvent :=
        { contentId := msg.contentId, status := status, analysis := analysis,
          processingTime := procTime, timestamp := now, isDuplicate := isDup }
      { st with store := store1, bloom := bloom1, stats := stats2,
                events := st.events ++ [ev] }

/-- Status field of the stored document for a content id. -/
def storedStatus (st : SysState) (contentId : String) : Option String :=
  match storeGet st.store ("content:" ++ contentId) with
  | some r => r.status
  | none => none

/-- Input of one consumer iteration. -/
structure StepInput where
  msg : Msg
  fault : Bool
  storeFails : Bool
  procTime : ℚ
  now : Nat
deriving DecidableEq, Repr

/-- Sequential consumption of a list of messages. -/
def runSteps (st : SysState) (xs : List StepInput) : SysState :=
  xs.foldl (fun s x => processContent s x.msg x.fault x.storeFails x.procTime x.now) st

/-- A step that takes the success path of `processContent`. -/
def successfulInput (x : StepInput) : Prop :=
  x.msg.text.isSome = true ∧ x.storeFails = false

/-- The counter invariant of the processing stats. -/
def statsInv (st : SysState) : Prop :=
  st.stats.totalProcessed = st.stats.totalFlagged + st.stats.totalApproved

/-! ### Definitions transcribed from the specification's words

These follow the spec text (not the source) and are compared with the
source-derived definitions above. -/

/-- The confidence formula as the spec states it, with the inner cap
`min(len(text)/200, 1)` on the length contribution. -/
def specConfidenceClaim (text : String) : ℚ :=
  jsRound2 (min (1/2 + (3/10) * min ((text.length : ℚ) / 200) 1
        + (if rawToxicity text > 0 then 1/5 else 0)
        + (if rawPositive text > 0 then 1/10 else 0))
      (19/20))

/-- The confidence formula with the inner length cap removed — the source
computes `0.3 * (len/200)` uncapped (the outer 0.95 cap remains). -/
def specConfidenceAmended (text : String) : ℚ :=
  jsRound2 (min (1/2 + (3/10) * ((text.length : ℚ) / 200)
        + (if rawToxicity text > 0 then 1/5 else 0)
        + (if rawPositive text > 0 then 1/10 else 0))
      (19/20))

/-- Deduplicate a token list keeping the first occurrence of each token, in
first-seen order. -/
def firstSeen : List String → List String
  | [] => []
  | w :: ws => w :: (firstSeen ws).filter (fun x => x != w)

/-- Keyword extraction as the claim states it: frequencies of the tokens,
ties broken purely by first-seen order. -/
def specKeywordsClaim (text : String) : List String :=
  let ws := keywordTokens text
  ((sortByCountDesc ((firstSeen ws).map (fun w => (w, ws.count w)))).take 5).map
    (fun p => p.1)

/-- Keyword extraction with the tie order amended to the JavaScript object
key order: array-index tokens first in ascending numeric order, then the
remaining tokens in first-seen order. -/
def specKeywordsAmended (text : String) : List String :=
  let ws := keywordTokens text
  ((sortByCountDesc (jsEntries ((firstSeen ws).map (fun w => (w, ws.count w))))).take 5).map
    (fun p => p.1)

/-- `n` concatenated copies of a string. -/
def repeatString (w : String) : Nat → String
  | 0 => ""
  | n + 1 => w ++ repeatString w n

/-- The text of Scenario B. -/
def scenarioBText : String := "I hate this stupid thing, complete waste of money!"

/-- A 240-character text with no toxic or positive word. -/
def longPlainText : String := String.mk (List.replicate 240 'a')

/-! ### Helper lemmas -/

theorem stats_if_totalProcessed (c : Bool) (s : ProcStats) :
    (if c = true then { s with totalFlagged := s.totalFlagged + 1 }
     else { s with totalApproved := s.totalApproved + 1 }).totalProcessed
      = s.totalProcessed := by
  cases c <;> rfl

theorem stats_if_avg (c : Bool) (s : ProcStats) :
    (if c = true then { s with totalFlagged := s.totalFlagged + 1 }
     else { s with totalApproved := s.totalApproved + 1 }).averageProcessingTime
      = s.averageProcessingTime := by
  cases c <;> rfl

theorem stats_if_flagged (c : Bool) (s : ProcStats) :
    (if c = true then { s with totalFlagged := s.totalFlagged + 1 }
     else { s with totalApproved := s.totalApproved + 1 }).totalFlagged
      = if c = true then s.totalFlagged + 1 else s.totalFlagged := by
  cases c <;> rfl

theorem stats_if_approved (c : Bool) (s : ProcStats) :
    (if c = true then { s with totalFlagged := s.totalFlagged + 1 }
     else { s with totalApproved := s.totalApproved + 1 }).totalApproved
      = if c = true then s.totalApproved else s.totalApproved + 1 := by
  cases c <;> rfl

theorem sAdd_contains_self (l : List String) (x : String) :
    (sAdd l x).contains x = true := by
  unfold sAdd
  split
  · assumption
  · simp [List.contains_cons]

theorem storeGet_storeSet_self (m : List (String × ContentRecord)) (k : String)
    (v : ContentRecord) : storeGet (storeSet m k v) k = some v := by
  induction m with
  | nil =>
    simp only [storeSet, List.any_nil, Bool.false_eq_true, if_false,
      List.nil_append, storeGet]
    rw [List.find?_cons_of_pos]
    · rfl
    · exact beq_self_eq_true k
  | cons p m ih =>
    cases hpk : (p.1 == k) with
    | true =>
      have hany : (p :: m).any (fun q => q.1 == k) = true := by
        simp [List.any_cons, hpk]
      simp only [storeSet, hany, if_true, List.map_cons, storeGet]
      rw [if_pos hpk, List.find?_cons_of_pos]
      · rfl
      · exact beq_self_eq_true k
    | false =>
      have hne : ¬((p.1 == k) = true) := by simp [hpk]
      cases hm : m.any (fun q => q.1 == k) with
      | true =>
        have hany : (p :: m).any (fun q => q.1 == k) = true := by
          simp [List.any_cons, hm]
        have ihm := ih
        rw [storeSet, if_pos hm] at ihm
        simp only [storeSet, hany, if_true, List.map_cons, storeGet]
        rw [if_neg hne]
        simp only [List.find?, hpk]
        exact ihm
      | false =>
        have hany : ¬((p :: m).any (fun q => q.1 == k) = true) := by
          simp [List.any_cons, hpk, hm]
        have ihm := ih
        rw [storeSet, if_neg (by simp [hm])] at ihm
        rw [storeSet, if_neg hany, List.cons_append]
        simp only [storeGet, List.find?, hpk]
        exact ihm

theorem processContent_none (st : SysState) (msg : Msg) (fault sf : Bool)
    (pt : ℚ) (now : Nat) (h : msg.text = none) :
    processContent st msg fault sf pt now = writeErrorState st msg.contentId now pt := by
  unfold processContent
  rw [h]

theorem processContent_storeFails (st : SysState) (msg : Msg) (t : String)
    (fault : Bool) (pt : ℚ) (now : Nat) (h : msg.text = some t) :
    processContent st msg fault true pt now = writeErrorState st msg.contentId now pt := by
  unfold processContent
  rw [h]
  rfl

theorem writeErrorState_stats (st : SysState) (cid : String) (now : Nat) (pt : ℚ) :
    (writeErrorState st cid now pt).stats = st.stats := rfl

theorem writeErrorState_bloom (st : SysState) (cid : String) (now : Nat) (pt : ℚ) :
    (writeErrorState st cid now pt).bloom = st.bloom := rfl

theorem writeErrorState_events (st : SysState) (cid : String) (now : Nat) (pt : ℚ) :
    (writeErrorState st cid now pt).events = st.events := rfl

theorem processContent_success_totalProcessed (st : SysState) (msg : Msg)
    (t : String) (fault : Bool) (pt : ℚ) (now : Nat) (h : msg.text = some t) :
    (processContent st msg fault false pt now).stats.totalProcessed
      = st.stats.totalProcessed + 1 := by
  unfold processContent
  rw [h]
  cases htox : (analyzeContent t msg.category fault).isToxic <;> simp [htox]

theorem processContent_success_avg (st : SysState) (msg : Msg)
    (t : String) (fault : Bool) (pt : ℚ) (now : Nat) (h : msg.text = some t) :
    (processContent st msg fault false pt now).stats.averageProcessingTime
      = (st.stats.averageProcessingTime * (((st.stats.totalProcessed : ℚ) + 1) - 1)
          + pt) / ((st.stats.totalProcessed : ℚ) + 1) := by
  unfold processContent
  rw [h]
  cases htox : (analyzeContent t msg.category fault).isToxic <;> simp [htox]

theorem processContent_success_flagged (st : SysState) (msg : Msg)
    (t : String) (fault : Bool) (pt : ℚ) (now : Nat) (h : msg.text = some t) :
    (processContent st msg fault false pt now).stats.totalFlagged
      = if (analyzeContent t msg.category fault).isToxic = true
        then st.stats.totalFlagged + 1 else st.stats.totalFlagged := by
  unfold processContent
  rw [h]
  cases htox : (analyzeContent t msg.category fault).isToxic <;> simp [htox]

theorem processContent_success_approved (st : SysState) (msg : Msg)
    (t : String) (fault : Bool) (pt : ℚ) (now : Nat) (h : msg.text = some t) :
    (processContent st msg fault false pt now).stats.totalApproved
      = if (analyzeContent t msg.category fault).isToxic = true
        then st.stats.totalApproved else st.stats.totalApproved + 1 := by
  unfold processContent
  rw [h]
  cases htox : (analyzeContent t msg.category fault).isToxic <;> simp [htox]

theorem processContent_success_events (st : SysState) (msg : Msg)
    (t : String) (fault : Bool) (pt : ℚ) (now : Nat) (h : msg.text = some t) :
    (processContent st msg fault false pt now).events
      = st.events ++
        [{ contentId := msg.contentId,
           status := if (analyzeContent t msg.category fault).isToxic
                     then "flagged" else "approved",
           analysis := analyzeContent t msg.category fault,
           processingTime := pt, timestamp := now,
           isDuplicate := st.bloom.contains (hashContent t) }] := by
  unfold processContent
  rw [h]
  cases htox : (analyzeContent t msg.category fault).isToxic <;> simp [htox]

theorem processContent_success_bloom (st : SysState) (msg : Msg)
    (t : String) (fault : Bool) (pt : ℚ) (now : Nat) (h : msg.text = some t) :
    (processContent st msg fault false pt now).bloom
      = if st.bloom.contains (hashContent t)
        then st.bloom else sAdd st.bloom (hashContent t) := by
  unfold processContent
  rw [h]
  cases htox : (analyzeContent t msg.category fault).isToxic <;> simp [htox]

theorem processContent_success_storedStatus (st : SysState) (msg : Msg)
    (t : String) (fault : Bool) (pt : ℚ) (now : Nat) (h : msg.text = some t) :
    storedStatus (processContent st msg fault false pt now) msg.contentId
      = some (if (analyzeContent t msg.category fault).isToxic
              then "flagged" else "approved") := by
  unfold processContent
  rw [h]
  cases htox : (analyzeContent t msg.category fault).isToxic <;>
    simp [htox, storedStatus, storeGet_storeSet_self]

/-! ### Claim theorems -/

/-- C1: for the Scenario B text (any categoryHint), `analyzeContent` returns
`toxicityScore = 0.6` (two toxic-word matches at 0.3 each, capped at 1.0) and
`isToxic = true`, and `processContent` assigns the item terminal status
`flagged`. -/
theorem scenarioB_toxicity_flagged (category userId : String) (pt : ℚ) (now : Nat) :
    (analyzeContent scenarioBText category false).toxicityScore = 3/5 ∧
    (analyzeContent scenarioBText category false).isToxic = true ∧
    storedStatus (processContent initState
        { contentId := "b1", text := some scenarioBText, category := category,
          userId := userId } false false pt now) "b1" = some "flagged" := by
  have htox : rawToxicity scenarioBText = 3/5 := by with_unfolding_all decide
  have h2 : (analyzeContent scenarioBText category false).isToxic = true := by
    show decide (rawToxicity scenarioBText > 1/2) = true
    rw [htox]
    with_unfolding_all decide
  refine ⟨?_, h2, ?_⟩
  · show jsRound2 (rawToxicity scenarioBText) = 3/5
    rw [htox]
    with_unfolding_all decide
  · rw [processContent_success_storedStatus _ _ scenarioBText _ _ _ rfl]
    rw [h2]
    rfl

/-- C2 (amended): if the internal scoring computation fails, `analyzeContent`
catches the failure and returns a low-confidence neutral result (confidence
0.1, sentiment neutral, wordCount still computed) — but since that fallback
has `isToxic = false` and the error does not propagate, the item ends with
terminal status `approved`, not `error`. -/
theorem analysis_fallback_yields_approved (st : SysState) (msg : Msg) (t : String)
    (pt : ℚ) (now : Nat) (h : msg.text = some t) :
    (analyzeContent t msg.category true).confidence = 1/10 ∧
    (analyzeContent t msg.category true).sentiment = "neutral" ∧
    (analyzeContent t msg.category true).isToxic = false ∧
    (analyzeContent t msg.category true).wordCount = (t.splitOn " ").length ∧
    storedStatus (processContent st msg true false pt now) msg.contentId
      = some "approved" := by
  refine ⟨rfl, rfl, rfl, rfl, ?_⟩
  rw [processContent_success_storedStatus st msg t true pt now h]
  rfl

/-- Witness for C2's amended theorem at a concrete input. -/
theorem analysis_fallback_yields_approved_witness :
    (analyzeContent "x" "general" true).confidence = 1/10 ∧
    (analyzeContent "x" "general" true).sentiment = "neutral" ∧
    (analyzeContent "x" "general" true).isToxic = false ∧
    (analyzeContent "x" "general" true).wordCount = ("x".splitOn " ").length ∧
    storedStatus (processContent initState
      { contentId := "c1", text := some "x", category := "general", userId := "u" }
      true false 0 0) "c1" = some "approved" :=
  analysis_fallback_yields_approved initState
    { contentId := "c1", text := some "x", category := "general", userId := "u" }
    "x" 0 0 rfl

/-- C2 counterexample: with a scoring fault injected, the item's terminal
status is `approved`, not `error` as the claim states. -/
theorem analysis_fallback_status_counterexample :
    storedStatus (processContent initState
      { contentId := "c1", text := some "x", category := "general", userId := "u" }
      true false 0 0) "c1" = some "approved" ∧
    (some "approved" : Option String) ≠ some "error" := by
  constructor <;> decide

/-- C3: submitting "hello world" and then processing it successfully leaves a
stored record whose creation fields (text, id, category, userId, timestamp,
source) are all gone: the terminal `JSON.SET` at the root path `'$'` replaced
the whole document with only the terminal fields.  The claim that creation
fields persist unchanged fails on the code. -/
theorem terminal_update_drops_creation_fields :
    ((storeGet (submitContent initState "hello world" none none none "c1" "1-0" 100).store
        "content:c1").map (fun r => r.text) = some (some "hello world")) ∧
    ((storeGet (submitContent initState "hello world" none none none "c1" "1-0" 100).store
        "content:c1").map (fun r => r.status) = some (some "pending")) ∧
    ((storeGet (processContent
          (submitContent initState "hello world" none none none "c1" "1-0" 100)
          { contentId := "c1", text := some "hello world", category := "general",
            userId := "anonymous" } false false 5 200).store
        "content:c1").map (fun r => r.text) = some none) ∧
    ((storeGet (processContent
          (submitContent initState "hello world" none none none "c1" "1-0" 100)
          { contentId := "c1", text := some "hello world", category := "general",
            userId := "anonymous" } false false 5 200).store
        "content:c1").map (fun r => r.id) = some none) ∧
    ((storeGet (processContent
          (submitContent initState "hello world" none none none "c1" "1-0" 100)
          { contentId := "c1", text := some "hello world", category := "general",
            userId := "anonymous" } false false 5 200).store
        "content:c1").map (fun r => r.category) = some none) ∧
    ((storeGet (processContent
          (submitContent initState "hello world" none none none "c1" "1-0" 100)
          { contentId := "c1", text := some "hello world", category := "general",
            userId := "anonymous" } false false 5 200).store
        "content:c1").map (fun r => r.userId) = some none) ∧
    ((storeGet (processContent
          (submitContent initState "hello world" none none none "c1" "1-0" 100)
          { contentId := "c1", text := some "hello world", category := "general",
            userId := "anonymous" } false false 5 200).store
        "content:c1").map (fun r => r.timestamp) = some none) ∧
    ((storeGet (processContent
          (submitContent initState "hello world" none none none "c1" "1-0" 100)
          { contentId := "c1", text := some "hello world", category := "general",
            userId := "anonymous" } false false 5 200).store
        "content:c1").map (fun r => r.source) = some none) ∧
    ((storeGet (processContent
          (submitContent initState "hello world" none none none "c1" "1-0" 100)
          { contentId := "c1", text := some "hello world", category := "general",
            userId := "anonymous" } false false 5 200).store
        "content:c1").map (fun r => r.status) = some (some "approved")) := by
  refine ⟨?_, ?_, ?_, ?_, ?_, ?_, ?_, ?_, ?_⟩ <;> with_unfolding_all decide

set_option maxRecDepth 4000 in
/-- C4 counterexample: a 240-character plain text gets confidence 0.88 from
the code (uncapped length term 0.36), while the claimed formula with the
inner cap `min(len/200, 1)` yields 0.8. -/
theorem confidence_inner_cap_counterexample :
    (analyzeContent longPlainText "general" false).confidence
        ≠ specConfidenceClaim longPlainText ∧
    (analyzeContent longPlainText "general" false).confidence = 43/50 ∧
    specConfidenceClaim longPlainText = 4/5 := by
  refine ⟨?_, ?_, ?_⟩ <;> with_unfolding_all decide

/-- C4 (amended): the confidence returned by `analyzeContent` equals
`min(0.5 + 0.3·(len(text)/200) + 0.2·[toxicityScore>0] + 0.1·[positiveScore>0],
0.95)` rounded to 2 decimal places — the length contribution is not capped
at 0.3 (only the outer 0.95 cap applies). -/
theorem confidence_formula_amended (text category : String) :
    (analyzeContent text category false).confidence = specConfidenceAmended text := by
  show jsRound2 (rawConfidence text) = specConfidenceAmended text
  unfold rawConfidence specConfidenceAmended
  rw [mul_comm ((text.length : ℚ) / 200) (3/10)]

/-- C5: processing the same text twice (from a bloom state not containing its
hash) publishes a first event with `isDuplicate = false` and a second with
`isDuplicate = true`; and a hash added to the set-backed filter is always
reported present afterwards (no false negative). -/
theorem duplicate_second_submission (st : SysState)
    (id1 id2 cat1 cat2 uid1 uid2 t : String) (pt1 pt2 : ℚ) (n1 n2 : Nat)
    (h : st.bloom.contains (hashContent t) = false) :
    (∃ ev1 ev2,
      (processContent (processContent st
          { contentId := id1, text := some t, category := cat1, userId := uid1 }
          false false pt1 n1)
        { contentId := id2, text := some t, category := cat2, userId := uid2 }
        false false pt2 n2).events
        = st.events ++ [ev1, ev2] ∧
      ev1.isDuplicate = false ∧ ev2.isDuplicate = true) ∧
    (∀ (l : List String) (x : String), (sAdd l x).contains x = true) := by
  have hev1 := processContent_success_events st
    { contentId := id1, text := some t, category := cat1, userId := uid1 }
    t false pt1 n1 rfl
  have hbl1 := processContent_success_bloom st
    { contentId := id1, text := some t, category := cat1, userId := uid1 }
    t false pt1 n1 rfl
  rw [h] at hev1 hbl1
  simp only [Bool.false_eq_true, if_false] at hbl1
  have hdup2 : (processContent st
      { contentId := id1, text := some t, category := cat1, userId := uid1 }
      false false pt1 n1).bloom.contains (hashContent t) = true := by
    rw [hbl1]
    exact sAdd_contains_self _ _
  have hev2 := processContent_success_events (processContent st
      { contentId := id1, text := some t, category := cat1, userId := uid1 }
      false false pt1 n1)
    { contentId := id2, text := some t, category := cat2, userId := uid2 }
    t false pt2 n2 rfl
  rw [hdup2] at hev2
  dsimp only at hev1 hev2
  refine ⟨⟨{ contentId := id1,
             status := if (analyzeContent t cat1 false).isToxic then "flagged"
                       else "approved",
             analysis := analyzeContent t cat1 false, processingTime := pt1,
             timestamp := n1, isDuplicate := false },
           { contentId := id2,
             status := if (analyzeContent t cat2 false).isToxic then "flagged"
                       else "approved",
             analysis := analyzeContent t cat2 false, processingTime := pt2,
             timestamp := n2, isDuplicate := true }, ?_, rfl, rfl⟩,
          sAdd_contains_self⟩
  rw [hev2, hev1, List.append_assoc]
  rfl

/-- Witness for C5 starting from the empty filter. -/
theorem duplicate_second_submission_witness :
    initState.bloom.contains (hashContent "same text") = false ∧
    ((∃ ev1 ev2,
      (processContent (processContent initState
          { contentId := "a1", text := some "same text", category := "general",
            userId := "u1" } false false 1 10)
        { contentId := "a2", text := some "same text", category := "general",
          userId := "u2" } false false 2 20).events
        = initState.events ++ [ev1, ev2] ∧
      ev1.isDuplicate = false ∧ ev2.isDuplicate = true) ∧
    (∀ (l : List String) (x : String), (sAdd l x).contains x = true)) :=
  ⟨rfl, duplicate_second_submission initState "a1" "a2" "general" "general"
    "u1" "u2" "same text" 1 2 10 20 rfl⟩

/-- After any run of successfully processed messages the consumer's counters
satisfy: `totalProcessed` equals the number of messages, and the running
average times the count equals the sum of the observed processing times. -/
theorem runSteps_success_stats (xs : List StepInput)
    (hall : ∀ x ∈ xs, successfulInput x) :
    (runSteps initState xs).stats.totalProcessed = xs.length ∧
    (runSteps initState xs).stats.averageProcessingTime * (xs.length : ℚ)
      = (xs.map (fun x => x.procTime)).sum := by
  induction xs using List.reverseRecOn with
  | nil => exact ⟨rfl, by simp [runSteps, initState]⟩
  | append_singleton ys x ih =>
    have hys : ∀ y ∈ ys, successfulInput y := fun y hy => hall y (by simp [hy])
    obtain ⟨hsome, hsf⟩ := hall x (by simp)
    obtain ⟨t, ht⟩ := Option.isSome_iff_exists.mp hsome
    obtain ⟨h1, h2⟩ := ih hys
    have hrun : runSteps initState (ys ++ [x])
        = processContent (runSteps initState ys) x.msg x.fault x.storeFails
            x.procTime x.now := by
      simp [runSteps, List.foldl_append]
    rw [hrun, hsf]
    constructor
    · rw [processContent_success_totalProcessed _ _ t _ _ _ ht, h1]
      simp
    · rw [processContent_success_avg _ _ t _ _ _ ht, h1]
      have hd : ((ys.length : ℚ) + 1) ≠ 0 := by positivity
      simp only [List.length_append, List.map_append, List.sum_append,
        List.map_cons, List.map_nil, List.sum_cons, List.sum_nil,
        List.length_cons, List.length_nil, Nat.zero_add, add_zero]
      push_cast
      rw [div_mul_cancel₀ _ hd]
      have he : ((ys.length : ℚ) + 1) - 1 = (ys.length : ℚ) := by ring
      rw [he, h2]

/-- C6: after each prefix of length `k` (1 ≤ k ≤ n) of a sequence of
successfully processed messages, `averageProcessingTime` equals the
arithmetic mean of the `k` observed processing times (maintained by the
online update `avg' = (avg·(n-1) + x)/n` in `processContent`). -/
theorem running_average_is_mean (xs : List StepInput) (k : Nat)
    (hall : ∀ x ∈ xs, successfulInput x) (hk1 : 1 ≤ k) (hk2 : k ≤ xs.length) :
    (runSteps initState (xs.take k)).stats.averageProcessingTime
      = ((xs.take k).map (fun x => x.procTime)).sum / (k : ℚ) := by
  have hall2 : ∀ x ∈ xs.take k, successfulInput x :=
    fun x hx => hall x (List.take_subset k xs hx)
  obtain ⟨h1, h2⟩ := runSteps_success_stats (xs.take k) hall2
  have hlen : (xs.take k).length = k := by
    rw [List.length_take]
    exact Nat.min_eq_left hk2
  rw [hlen] at h2
  have hk : (k : ℚ) ≠ 0 := Nat.cast_ne_zero.mpr (by omega)
  rw [eq_div_iff hk]
  exact h2

/-- Witness for C6 at a concrete two-message run. -/
theorem running_average_is_mean_witness :
    (runSteps initState ((
        [⟨⟨"c1", some "a", "general", "u"⟩, false, false, 5, 0⟩,
         ⟨⟨"c2", some "b", "general", "u"⟩, false, false, 7, 0⟩] :
          List StepInput).take 2)).stats.averageProcessingTime
      = (((
        [⟨⟨"c1", some "a", "general", "u"⟩, false, false, 5, 0⟩,
         ⟨⟨"c2", some "b", "general", "u"⟩, false, false, 7, 0⟩] :
          List StepInput).take 2).map (fun x => x.procTime)).sum / (2 : ℚ) :=
  running_average_is_mean _ 2 (by simp only [successfulInput]; decide) (by decide)
    (by decide)

theorem mk_append (x y : List Char) :
    String.mk x ++ String.mk y = String.mk (x ++ y) := rfl

theorem lowerStr_append (a b : String) :
    lowerStr (a ++ b) = lowerStr a ++ lowerStr b := by
  obtain ⟨la⟩ := a
  obtain ⟨lb⟩ := b
  simp [lowerStr, mk_append, List.map_append]

theorem leadsWith_append (nd : List Char) :
    ∀ (hay ext : List Char), leadsWith nd hay = true →
      leadsWith nd (hay ++ ext) = true := by
  induction nd with
  | nil => intro hay ext _; rfl
  | cons a as ih =>
    intro hay ext h
    cases hay with
    | nil => cases h
    | cons b bs =>
      rw [List.cons_append]
      simp only [leadsWith, Bool.and_eq_true] at h ⊢
      exact ⟨h.1, ih bs ext h.2⟩

theorem containsSub_nil (l : List Char) : containsSub [] l = true := by
  cases l <;> simp [containsSub, leadsWith, List.isEmpty_nil]

theorem containsSub_append (nd hay ext : List Char)
    (h : containsSub nd hay = true) : containsSub nd (hay ++ ext) = true := by
  induction hay with
  | nil =>
    have : nd = [] := by
      cases nd with
      | nil => rfl
      | cons c cs => simp [containsSub, List.isEmpty_cons] at h
    subst this
    exact containsSub_nil ext
  | cons c cs ih =>
    rw [List.cons_append]
    simp only [containsSub, Bool.or_eq_true] at h ⊢
    rcases h with h | h
    · exact Or.inl (by
        have := leadsWith_append nd (c :: cs) ext h
        rwa [List.cons_append] at this)
    · exact Or.inr (ih h)

theorem strIncludes_append (a b w : String) (h : strIncludes a w = true) :
    strIncludes (a ++ b) w = true := by
  unfold strIncludes at h ⊢
  obtain ⟨la⟩ := a
  obtain ⟨lb⟩ := b
  rw [mk_append]
  exact containsSub_append _ _ _ h

theorem foldl_score_le (p q : String → Bool) (hpq : ∀ w, p w = true → q w = true)
    (inc : ℚ) (hinc : 0 ≤ inc) :
    ∀ (ws : List String) (a b : ℚ), a ≤ b →
      ws.foldl (fun s w => if p w then s + inc else s) a
        ≤ ws.foldl (fun s w => if q w then s + inc else s) b := by
  intro ws
  induction ws with
  | nil => intro a b h; exact h
  | cons w ws ih =>
    intro a b h
    simp only [List.foldl_cons]
    apply ih
    by_cases hp : p w = true
    · rw [if_pos hp, if_pos (hpq w hp)]
      linarith
    · rw [if_neg hp]
      by_cases hq : q w = true
      · rw [if_pos hq]
        linarith
      · rw [if_neg hq]
        exact h

theorem rawToxicity_mono_append (t s : String) :
    rawToxicity t ≤ rawToxicity (t ++ s) := by
  unfold rawToxicity scoreAccum
  refine min_le_min ?_ le_rfl
  refine foldl_score_le _ _ ?_ _ (by norm_num) _ _ _ le_rfl
  intro w hw
  rw [lowerStr_append]
  exact strIncludes_append _ _ _ hw

theorem jsRound2_mono {a b : ℚ} (h : a ≤ b) : jsRound2 a ≤ jsRound2 b := by
  unfold jsRound2
  have h1 : ⌊a * 100 + 1/2⌋ ≤ ⌊b * 100 + 1/2⌋ := Int.floor_le_floor (by linarith)
  have h2 : ((⌊a * 100 + 1/2⌋ : ℤ) : ℚ) ≤ ((⌊b * 100 + 1/2⌋ : ℤ) : ℚ) :=
    Int.cast_le.mpr h1
  linarith

/-- C7: appending additional occurrences of a toxic keyword to a text never
decreases `toxicityScore` (the matched-word set only grows under appending,
and the 0.3-per-match accumulation, the 1.0 cap and the 2-decimal rounding
are all monotone). -/
theorem toxicity_monotone_append (t category w : String)
    (_hw : w ∈ toxicWords) (n : Nat) :
    (analyzeContent t category false).toxicityScore
      ≤ (analyzeContent (t ++ repeatString w n) category false).toxicityScore := by
  show jsRound2 (rawToxicity t) ≤ jsRound2 (rawToxicity (t ++ repeatString w n))
  exact jsRound2_mono (rawToxicity_mono_append t (repeatString w n))

/-- Witness for C7 at a concrete text and keyword. -/
theorem toxicity_monotone_append_witness :
    ("hate" ∈ toxicWords) ∧
    (analyzeContent "meh" "general" false).toxicityScore
      ≤ (analyzeContent ("meh" ++ repeatString "hate" 2) "general" false).toxicityScore :=
  ⟨by decide, toxicity_monotone_append "meh" "general" "hate" (by decide) 2⟩

/-- C10: the invariant `totalProcessed = totalFlagged + totalApproved` is
preserved by every message; a successful message increments `totalProcessed`
and exactly one of `totalFlagged` (when toxic) or `totalApproved`; a message
that fails inside `processContent` (missing text, or the terminal store
write throwing) increments none of the three counters. -/
theorem processing_counters_invariant (st : SysState) (msg : Msg)
    (fault sf : Bool) (pt : ℚ) (now : Nat) :
    (statsInv st → statsInv (processContent st msg fault sf pt now)) ∧
    ((msg.text = none ∨ sf = true) →
      (processContent st msg fault sf pt now).stats = st.stats) ∧
    (∀ t, msg.text = some t → sf = false →
      (processContent st msg fault sf pt now).stats.totalProcessed
          = st.stats.totalProcessed + 1 ∧
      ((analyzeContent t msg.category fault).isToxic = true →
        (processContent st msg fault sf pt now).stats.totalFlagged
            = st.stats.totalFlagged + 1 ∧
        (processContent st msg fault sf pt now).stats.totalApproved
            = st.stats.totalApproved) ∧
      ((analyzeContent t msg.category fault).isToxic = false →
        (processContent st msg fault sf pt now).stats.totalApproved
            = st.stats.totalApproved + 1 ∧
        (processContent st msg fault sf pt now).stats.totalFlagged
            = st.stats.totalFlagged)) := by
  refine ⟨?_, ?_, ?_⟩
  · intro hinv
    rcases hmt : msg.text with _ | t
    · rw [processContent_none st msg fault sf pt now hmt]
      exact hinv
    · cases sf with
      | true =>
        rw [processContent_storeFails st msg t fault pt now hmt]
        exact hinv
      | false =>
        unfold statsInv at hinv ⊢
        rw [processContent_success_totalProcessed st msg t fault pt now hmt,
            processContent_success_flagged st msg t fault pt now hmt,
            processContent_success_approved st msg t fault pt now hmt]
        by_cases htox : (analyzeContent t msg.category fault).isToxic = true
        · rw [if_pos htox, if_pos htox]
          omega
        · rw [if_neg htox, if_neg htox]
          omega
  · intro hor
    rcases hor with hnone | hsf
    · rw [processContent_none st msg fault sf pt now hnone]
      exact rfl
    · subst hsf
      rcases hmt : msg.text with _ | t
      · rw [processContent_none st msg fault true pt now hmt]
        exact rfl
      · rw [processContent_storeFails st msg t fault pt now hmt]
        exact rfl
  · intro t hmt hsf
    subst hsf
    refine ⟨processContent_success_totalProcessed st msg t fault pt now hmt, ?_, ?_⟩
    · intro htox
      constructor
      · rw [processContent_success_flagged st msg t fault pt now hmt, if_pos htox]
      · rw [processContent_success_approved st msg t fault pt now hmt, if_pos htox]
    · intro htox
      have htox2 : ¬((analyzeContent t msg.category fault).isToxic = true) := by
        simp [htox]
      constructor
      · rw [processContent_success_approved st msg t fault pt now hmt, if_neg htox2]
      · rw [processContent_success_flagged st msg t fault pt now hmt, if_neg htox2]


/-- Witness for C10 at concrete messages. -/
theorem processing_counters_invariant_witness :
    statsInv (processContent initState
      { contentId := "c1", text := some "hello", category := "general",
        userId := "u" } false false 0 0) ∧
    (processContent initState
      { contentId := "c0", text := none, category := "general", userId := "u" }
      false false 0 0).stats = initState.stats ∧
    (processContent initState
      { contentId := "c1", text := some "hello", category := "general",
        userId := "u" } false false 0 0).stats.totalProcessed
        = initState.stats.totalProcessed + 1 :=
  ⟨(processing_counters_invariant initState
      { contentId := "c1", text := some "hello", category := "general",
        userId := "u" } false false 0 0).1 rfl,
   (processing_counters_invariant initState
      { contentId := "c0", text := none, category := "general", userId := "u" }
      false false 0 0).2.1 (Or.inl rfl),
   ((processing_counters_invariant initState
      { contentId := "c1", text := some "hello", category := "general",
        userId := "u" } false false 0 0).2.2 "hello" rfl rfl).1⟩

theorem sum_map_sq_nonneg (v : List ℚ) : 0 ≤ (v.map (fun x => x * x)).sum := by
  induction v with
  | nil => simp
  | cons x v ih =>
    rw [List.map_cons, List.sum_cons]
    exact add_nonneg (mul_self_nonneg x) ih

theorem magnitudeSq_nonneg (v : List ℚ) : 0 ≤ magnitudeSq v :=
  sum_map_sq_nonneg v

theorem sum_map_sq_cast (v : List ℚ) :
    (((v.map (fun x => x * x)).sum : ℚ) : ℝ)
      = (v.map (fun (q : ℚ) => (q : ℝ) * (q : ℝ))).sum := by
  induction v with
  | nil => simp
  | cons x v ih =>
    rw [List.map_cons, List.sum_cons, List.map_cons, List.sum_cons,
      Rat.cast_add, Rat.cast_mul, ih]

theorem sum_map_div_sq (v : List ℚ) (c : ℝ) :
    (v.map (fun (q : ℚ) => ((q : ℝ) / c) * ((q : ℝ) / c))).sum
      = (v.map (fun (q : ℚ) => (q : ℝ) * (q : ℝ))).sum / (c * c) := by
  induction v with
  | nil => simp
  | cons x v ih =>
    rw [List.map_cons, List.sum_cons, List.map_cons, List.sum_cons, ih, add_div,
      div_mul_div_comm]

theorem foldl_len_inv {α : Type} (g : List ℚ → α → List ℚ)
    (hg : ∀ acc x, (g acc x).length = acc.length) :
    ∀ (l : List α) (v : List ℚ), (l.foldl g v).length = v.length := by
  intro l
  induction l with
  | nil => intro v; rfl
  | cons x l ih =>
    intro v
    rw [List.foldl_cons, ih, hg]

theorem addChar_length (sinq : ℚ → ℚ) (i j : Nat) (c : Char) (v : List ℚ) :
    (addChar sinq i j c v).length = v.length := by
  unfold addChar
  exact List.length_set v _ _

theorem addWord_length (sinq : ℚ → ℚ) (v : List ℚ) (iw : Nat × List Char) :
    (addWord sinq v iw).length = v.length := by
  unfold addWord
  exact foldl_len_inv (fun acc jc => addChar sinq iw.1 jc.1 jc.2 acc)
    (fun acc jc => addChar_length sinq iw.1 jc.1 jc.2 acc) iw.2.enum v

theorem hashPass_length (sinq : ℚ → ℚ) (h : Nat) (v : List ℚ) :
    (hashPass sinq h v).length = v.length := by
  unfold hashPass
  exact foldl_len_inv _ (fun acc k => List.length_set acc _ _) _ v

theorem wordsPass_length (sinq : ℚ → ℚ) (text : String) :
    (wordsPass sinq text).length = 384 := by
  unfold wordsPass
  rw [foldl_len_inv _ (fun acc iw => addWord_length sinq acc iw)]
  exact List.length_replicate 384 0

theorem embeddingAccum_length (sinq : ℚ → ℚ) (text : String) :
    (embeddingAccum sinq text).length = 384 := by
  unfold embeddingAccum
  rw [hashPass_length, wordsPass_length]

/-- C9: the vector returned by `generateEmbedding` has L2 norm exactly 1
whenever the accumulated vector has nonzero magnitude, and is the
384-dimensional zero vector when the accumulated magnitude is zero. -/
theorem generateEmbedding_unit_norm (sinq : ℚ → ℚ) (text : String) :
    (magnitudeSq (embeddingAccum sinq text) ≠ 0 →
      Real.sqrt (((generateEmbedding sinq text).map (fun x => x * x)).sum) = 1) ∧
    (magnitudeSq (embeddingAccum sinq text) = 0 →
      generateEmbedding sinq text = List.replicate 384 (0 : ℝ)) := by
  constructor
  · intro hne
    have hpos : 0 < magnitudeSq (embeddingAccum sinq text) :=
      lt_of_le_of_ne (magnitudeSq_nonneg _) (Ne.symm hne)
    have hcast : (0 : ℝ) < ((magnitudeSq (embeddingAccum sinq text) : ℚ) : ℝ) := by
      exact_mod_cast hpos
    unfold generateEmbedding
    simp only [hpos, if_true, List.map_map]
    have hcomp : ((fun x : ℝ => x * x) ∘ fun (q : ℚ) =>
        (q : ℝ) / Real.sqrt ((magnitudeSq (embeddingAccum sinq text) : ℚ) : ℝ))
        = fun (q : ℚ) =>
            ((q : ℝ) / Real.sqrt ((magnitudeSq (embeddingAccum sinq text) : ℚ) : ℝ))
            * ((q : ℝ) / Real.sqrt ((magnitudeSq (embeddingAccum sinq text) : ℚ) : ℝ)) := rfl
    rw [hcomp, sum_map_div_sq, Real.mul_self_sqrt (le_of_lt hcast),
        ← sum_map_sq_cast,
        show (List.map (fun x => x * x) (embeddingAccum sinq text)).sum
          = magnitudeSq (embeddingAccum sinq text) from rfl,
        div_self (ne_of_gt hcast), Real.sqrt_one]
  · intro hz
    have hns : ¬(0 < magnitudeSq (embeddingAccum sinq text)) := by
      rw [hz]
      exact lt_irrefl 0
    unfold generateEmbedding
    simp only [hns, if_false]
    rw [show ((fun (_ : ℚ) => (0 : ℝ)) = Function.const ℚ (0 : ℝ)) from rfl,
        List.map_const, embeddingAccum_length]

theorem mem_of_mem_set (l : List ℚ) (n : Nat) (a : ℚ) :
    ∀ x ∈ l.set n a, x ∈ l ∨ x = a := by
  induction l generalizing n with
  | nil => intro x hx; exact absurd hx (by simp)
  | cons y l ih =>
    intro x hx
    cases n with
    | zero =>
      rw [List.set_cons_zero] at hx
      rcases List.mem_cons.mp hx with h | h
      · exact Or.inr h
      · exact Or.inl (List.mem_cons_of_mem y h)
    | succ n =>
      rw [List.set_cons_succ] at hx
      rcases List.mem_cons.mp hx with h | h
      · exact Or.inl (h ▸ List.mem_cons_self y l)
      · rcases ih n x h with h2 | h2
        · exact Or.inl (List.mem_cons_of_mem y h2)
        · exact Or.inr h2

theorem mem_set_self (l : List ℚ) (n : Nat) (a : ℚ) (h : n < l.length) :
    a ∈ l.set n a := by
  induction l generalizing n with
  | nil => simp at h
  | cons y l ih =>
    cases n with
    | zero => rw [List.set_cons_zero]; exact List.mem_cons_self a l
    | succ n =>
      rw [List.set_cons_succ]
      exact List.mem_cons_of_mem y (ih n (by simpa using h))

theorem getD_zero_nonneg (v : List ℚ) (h : ∀ x ∈ v, 0 ≤ x) (n : Nat) :
    0 ≤ v.getD n 0 := by
  induction v generalizing n with
  | nil => simp [List.getD]
  | cons y v ih =>
    cases n with
    | zero => simpa [List.getD] using h y (List.mem_cons_self y v)
    | succ n =>
      simp only [List.getD_cons_succ]
      exact ih (fun x hx => h x (List.mem_cons_of_mem y hx)) n

theorem getD_zero_of_all_zero (v : List ℚ) (h : ∀ x ∈ v, x = 0) (n : Nat) :
    v.getD n 0 = 0 := by
  induction v generalizing n with
  | nil => simp [List.getD]
  | cons y v ih =>
    cases n with
    | zero => simpa [List.getD] using h y (List.mem_cons_self y v)
    | succ n =>
      simp only [List.getD_cons_succ]
      exact ih (fun x hx => h x (List.mem_cons_of_mem y hx)) n

theorem foldl_pred_inv {α : Type} (P : ℚ → Prop) (g : List ℚ → α → List ℚ)
    (hg : ∀ acc k, (∀ x ∈ acc, P x) → ∀ x ∈ g acc k, P x) :
    ∀ (l : List α) (acc : List ℚ), (∀ x ∈ acc, P x) →
      ∀ x ∈ l.foldl g acc, P x := by
  intro l
  induction l with
  | nil => intro acc h; exact h
  | cons k l ih =>
    intro acc h
    rw [List.foldl_cons]
    exact ih (g acc k) (hg acc k h)

theorem magnitudeSq_eq_zero_of_all_zero (v : List ℚ) (h : ∀ x ∈ v, x = 0) :
    magnitudeSq v = 0 := by
  induction v with
  | nil => rfl
  | cons y v ih =>
    unfold magnitudeSq at ih ⊢
    rw [List.map_cons, List.sum_cons, h y (List.mem_cons_self y v),
      ih (fun x hx => h x (List.mem_cons_of_mem y hx))]
    norm_num

theorem magnitudeSq_pos_of_mem (v : List ℚ) (hnn : ∀ x ∈ v, 0 ≤ x) (a : ℚ)
    (ha : a ∈ v) (hapos : 0 < a) : 0 < magnitudeSq v := by
  induction v with
  | nil => exact absurd ha (by simp)
  | cons y v ih =>
    unfold magnitudeSq at ih ⊢
    rw [List.map_cons, List.sum_cons]
    rcases List.mem_cons.mp ha with h | h
    · subst h
      have := sum_map_sq_nonneg v
      nlinarith
    · have hy := hnn y (List.mem_cons_self y v)
      have := ih (fun x hx => hnn x (List.mem_cons_of_mem y hx)) h
      nlinarith

theorem hashPass_all_zero (sinq : ℚ → ℚ) (hs : ∀ q, sinq q = 0) (h : Nat)
    (v : List ℚ) (hv : ∀ x ∈ v, x = 0) : ∀ x ∈ hashPass sinq h v, x = 0 := by
  unfold hashPass
  refine foldl_pred_inv (fun x => x = 0) _ ?_ _ v hv
  intro acc k hacc x hx
  rcases mem_of_mem_set _ _ _ x hx with h2 | h2
  · exact hacc x h2
  · rw [h2, getD_zero_of_all_zero acc hacc k, hs]
    norm_num

theorem magnitudeSq_hashPass_pos (sinq : ℚ → ℚ) (hpos : ∀ q, 0 < sinq q)
    (h : Nat) (v : List ℚ) (hv : ∀ x ∈ v, 0 ≤ x) (hvlen : v.length = 384) :
    0 < magnitudeSq (hashPass sinq h v) := by
  have hstep : ∀ (acc : List ℚ) (k : Nat), (∀ x ∈ acc, 0 ≤ x) →
      ∀ x ∈ acc.set k (acc.getD k 0 + sinq (((h : ℚ) + k) / 1000) * (1/20)),
        0 ≤ x := by
    intro acc k hacc x hx
    rcases mem_of_mem_set _ _ _ x hx with h2 | h2
    · exact hacc x h2
    · rw [h2]
      have h3 := getD_zero_nonneg acc hacc k
      have h5 : 0 ≤ sinq (((h : ℚ) + k) / 1000) * (1/20) :=
        mul_nonneg (le_of_lt (hpos (((h : ℚ) + k) / 1000))) (by norm_num)
      linarith
  show 0 < magnitudeSq ((List.range 384).foldl
    (fun acc k => acc.set k (acc.getD k 0 + sinq (((h : ℚ) + k) / 1000) * (1/20))) v)
  rw [show (384 : Nat) = 383 + 1 from rfl, List.range_succ, List.foldl_append,
    List.foldl_cons, List.foldl_nil]
  set vp := (List.range 383).foldl
    (fun acc k => acc.set k (acc.getD k 0 + sinq (((h : ℚ) + k) / 1000) * (1/20)))
    v with hvp
  have hnnvp : ∀ x ∈ vp, 0 ≤ x := by
    rw [hvp]
    exact foldl_pred_inv _ _ hstep _ v hv
  have hlenvp : vp.length = v.length := by
    rw [hvp]
    exact foldl_len_inv _ (fun acc k => List.length_set acc _ _) _ v
  have hval : 0 < vp.getD 383 0 + sinq (((h : ℚ) + 383) / 1000) * (1/20) := by
    have h3 := getD_zero_nonneg vp hnnvp 383
    have h5 : 0 < sinq (((h : ℚ) + 383) / 1000) * (1/20) :=
      mul_pos (hpos (((h : ℚ) + 383) / 1000)) (by norm_num)
    linarith
  exact magnitudeSq_pos_of_mem _ (hstep vp 383 hnnvp) _
    (mem_set_self vp 383 _ (by rw [hlenvp, hvlen]; norm_num)) hval

theorem embeddingAccum_one_empty_ne :
    magnitudeSq (embeddingAccum (fun _ => (1 : ℚ)) "") ≠ 0 := by
  have h1 : embeddingAccum (fun _ => (1 : ℚ)) ""
      = hashPass (fun _ => 1) (simpleHash "") (List.replicate 384 0) := rfl
  rw [h1]
  refine ne_of_gt (magnitudeSq_hashPass_pos _ (fun q => one_pos) _ _ ?_ ?_)
  · intro x hx
    rw [List.eq_of_mem_replicate hx]
  · exact List.length_replicate 384 0

theorem embeddingAccum_zero_empty_eq :
    magnitudeSq (embeddingAccum (fun _ => (0 : ℚ)) "") = 0 := by
  have h1 : embeddingAccum (fun _ => (0 : ℚ)) ""
      = hashPass (fun _ => 0) (simpleHash "") (List.replicate 384 0) := rfl
  rw [h1]
  apply magnitudeSq_eq_zero_of_all_zero
  refine hashPass_all_zero _ (fun q => rfl) _ _ ?_
  intro x hx
  exact List.eq_of_mem_replicate hx

/-- Witness for C9: with the sine table replaced by the constant function 1
the accumulated magnitude is nonzero and the embedding has unit norm; with
the constant 0 the magnitude is zero and the embedding is the zero vector. -/
theorem generateEmbedding_unit_norm_witness :
    (magnitudeSq (embeddingAccum (fun _ => 1) "") ≠ 0 ∧
      Real.sqrt (((generateEmbedding (fun _ => 1) "").map (fun x => x * x)).sum) = 1) ∧
    (magnitudeSq (embeddingAccum (fun _ => 0) "") = 0 ∧
      generateEmbedding (fun _ => 0) "" = List.replicate 384 (0 : ℝ)) :=
  ⟨⟨embeddingAccum_one_empty_ne,
    (generateEmbedding_unit_norm (fun _ => 1) "").1 embeddingAccum_one_empty_ne⟩,
   ⟨embeddingAccum_zero_empty_eq,
    (generateEmbedding_unit_norm (fun _ => 0) "").2 embeddingAccum_zero_empty_eq⟩⟩

theorem mem_firstSeen (x : String) (l : List String) :
    x ∈ firstSeen l ↔ x ∈ l := by
  induction l with
  | nil => rfl
  | cons a l ih =>
    simp only [firstSeen, List.mem_cons, List.mem_filter, bne_iff_ne, ih]
    constructor
    · rintro (h | ⟨h, _⟩)
      · exact Or.inl h
      · exact Or.inr h
    · rintro (h | h)
      · exact Or.inl h
      · by_cases hxa : x = a
        · exact Or.inl hxa
        · exact Or.inr ⟨h, hxa⟩

theorem firstSeen_append_single (ws : List String) (w : String) :
    firstSeen (ws ++ [w])
      = if w ∈ ws then firstSeen ws else firstSeen ws ++ [w] := by
  induction ws with
  | nil => simp [firstSeen]
  | cons a ws ih =>
    rw [List.cons_append]
    show a :: (firstSeen (ws ++ [w])).filter (fun x => x != a) = _
    rw [ih]
    by_cases hw : w ∈ ws
    · rw [if_pos hw, if_pos (List.mem_cons_of_mem a hw)]
      rfl
    · rw [if_neg hw, List.filter_append]
      by_cases hwa : w = a
      · have hmem : w ∈ a :: ws := by rw [hwa]; exact List.mem_cons_self a ws
        rw [if_pos hmem]
        subst hwa
        simp [firstSeen]
      · have hmem : w ∉ a :: ws := by
          intro hc
          rcases List.mem_cons.mp hc with h | h
          · exact hwa h
          · exact hw h
        rw [if_neg hmem]
        have hbne : (w != a) = true := bne_iff_ne.mpr hwa
        have hfil : ([w].filter (fun x => x != a)) = [w] := by
          simp [List.filter, hbne]
        rw [hfil]
        show a :: ((firstSeen ws).filter (fun x => x != a) ++ [w])
          = (a :: (firstSeen ws).filter (fun x => x != a)) ++ [w]
        rw [List.cons_append]

theorem buildCount_spec (ws : List String) :
    buildCount ws = (firstSeen ws).map (fun w => (w, ws.count w)) := by
  induction ws using List.reverseRecOn with
  | nil => rfl
  | append_singleton ws x ih =>
    have hstep : buildCount (ws ++ [x]) = jsSetIncr (buildCount ws) x := by
      unfold buildCount
      rw [List.foldl_append, List.foldl_cons, List.foldl_nil]
    rw [hstep, ih]
    have hany : (((firstSeen ws).map (fun w => (w, ws.count w))).any
        (fun p => p.1 == x)) = true ↔ x ∈ ws := by
      simp [List.any_eq_true, List.mem_map, mem_firstSeen]
    by_cases hx : x ∈ ws
    · unfold jsSetIncr
      rw [if_pos (hany.mpr hx), firstSeen_append_single, if_pos hx, List.map_map]
      apply List.map_congr_left
      intro w hw
      simp only [Function.comp]
      by_cases hwx : w = x
      · subst hwx
        simp [List.count_append]
      · have hbne : ((w == x) = false) := by simp [hwx]
        have hc0 : List.count w [x] = 0 :=
          List.count_eq_zero_of_not_mem (fun hc => hwx (List.mem_singleton.mp hc))
        simp [hbne, List.count_append, hc0]
    · unfold jsSetIncr
      rw [if_neg (by simp [hany, hx]), firstSeen_append_single, if_neg hx,
        List.map_append]
      have hcx : (ws ++ [x]).count x = 1 := by
        have h0 : List.count x ws = 0 := List.count_eq_zero_of_not_mem hx
        rw [List.count_append, h0]
        simp
      have hmapx : ([x].map (fun w => (w, (ws ++ [x]).count w))) = [(x, 1)] := by
        simp [List.count_append, List.count_eq_zero_of_not_mem hx]
      rw [hmapx]
      have hmain : (firstSeen ws).map (fun w => (w, ws.count w))
          = (firstSeen ws).map (fun w => (w, (ws ++ [x]).count w)) := by
        apply List.map_congr_left
        intro w hw
        have hwws : w ∈ ws := (mem_firstSeen w ws).mp hw
        have hwx : w ≠ x := fun hc => hx (hc ▸ hwws)
        have hc0 : List.count w [x] = 0 :=
          List.count_eq_zero_of_not_mem (fun hc => hwx (List.mem_singleton.mp hc))
        rw [List.count_append, hc0, Nat.add_zero]
      rw [hmain]

/-- C8 counterexample: for the text "word 1234" both tokens have frequency 1
and "word" is seen first, yet `extractKeywords` returns `["1234", "word"]` —
`Object.entries` enumerates the array-index key "1234" before "word", so the
tie is not broken by first-seen order. -/
theorem keywords_tie_order_counterexample :
    extractKeywords "word 1234" = ["1234", "word"] ∧
    specKeywordsClaim "word 1234" = ["word", "1234"] ∧
    (["1234", "word"] : List String) ≠ ["word", "1234"] := by
  refine ⟨?_, ?_, ?_⟩ <;> decide

/-- C8 (amended): `extractKeywords` tokenizes on non-alphanumeric boundaries
of the lowercased text, keeps tokens longer than 3, and returns at most 5
tokens by descending frequency; equal-frequency ties follow the JavaScript
object key order — array-index tokens first in ascending numeric order,
then the remaining tokens in first-seen order. -/
theorem extractKeywords_matches_js_order (text : String) :
    extractKeywords text = specKeywordsAmended text ∧
    (extractKeywords text).length ≤ 5 := by
  constructor
  · unfold extractKeywords specKeywordsAmended
    rw [buildCount_spec]
  · unfold extractKeywords
    rw [List.length_map]
    exact List.length_take_le 5 _

end Moderation
